import Mathlib

/-
Verification of the ttyemu terminal emulator core (ttyemu.py, sounds.py):
the overstrike line model (AbstractLine), the Terminal cursor and scroll
state machine, and the PygameSounds audio state machine, shallowly
embedded in Lean 4.  Python integers are Int, Python one-line strings are
List Char, and the pygame timer and mixer calls are explicit fields of
the audio state.
-/

namespace Ttyemu

/-- COLUMNS = 72 (ttyemu.py module constant). -/
def COLUMNS : Int := 72

/-- Function `upper` from ttyemu.py:
```
ochar = ord(char)
ochar = (ochar - 32) & 127
if ochar > 64:
    ochar = 32 | (ochar & 31)
return chr(ochar + 32)
```
On a Python int, `x & 127` floors to the residue mod 128 in two
complement, i.e. `Int.emod x 128`; the result lies in [0,127].  For
`0 ≤ o ≤ 127` we have `o & 31 = o % 32`, and `32 | y = 32 + y` when
`y < 32` (disjoint bit patterns). -/
def upper (c : Char) : Char :=
  let o : Nat := (((c.toNat : Int) - 32).emod 128).toNat
  let o : Nat := if o > 64 then 32 + o % 32 else o
  Char.ofNat (o + 32)

/-- Structure `AbstractLine` from ttyemu.py: one line of text as a list of
extents `(begin, text)`, declared `extents: list[tuple[int, str]]`. -/
structure AbstractLine where
  extents : List (Int × List Char)
deriving DecidableEq

/-- The empty line produced by the `AbstractLine` constructor. -/
def AbstractLine.empty : AbstractLine := ⟨[]⟩

/-- Method `AbstractLine.place_char(column, char)` from ttyemu.py:
```
if char == " ": return
for i, (begin, text) in enumerate(self.extents):
    end = begin + len(text)
    if end == column:       self.extents[i] = (begin, text + char)
    elif end + 1 == column: self.extents[i] = (begin, text + " " + char)
self.extents.append((column, char))
```
The loop reads each extent before overwriting that same index and never
changes the list length, so it is a `List.map`; the `append` runs after
the loop on every non-space call (there is no early return inside the
loop). -/
def AbstractLine.place_char (l : AbstractLine) (column : Int) (char : Char) :
    AbstractLine :=
  if char = ' ' then l
  else
    let merged := l.extents.map fun bt =>
      let e : Int := bt.1 + bt.2.length
      if e = column then (bt.1, bt.2 ++ [char])
      else if e + 1 = column then (bt.1, bt.2 ++ [' ', char])
      else bt
    ⟨merged ++ [(column, [char])]⟩

/-- One step of the per-character loop of `AbstractLine.string_test`.
Python `(column + 8) & -8` clears the low three bits of a (possibly
negative) int in two complement, flooring `column + 8` to a multiple of
8: `8 * Int.fdiv (column + 8) 8`.  After each character the column is
clamped above to 71 and below to 0, in source order. -/
def stringTestStep (st : AbstractLine × Int) (char : Char) :
    AbstractLine × Int :=
  let p :=
    if char = '\t' then (st.1, 8 * ((st.2 + 8).fdiv 8))
    else if char = '\r' then (st.1, (0 : Int))
    else if char = '\x08' then (st.1, st.2 - 1)
    else (st.1.place_char st.2 char, st.2 + 1)
  let c := if p.2 > 71 then (71 : Int) else p.2
  let c := if c < 0 then (0 : Int) else c
  (p.1, c)

/-- Method `AbstractLine.string_test(chars, column=0)` from ttyemu.py:
feed the characters through `stringTestStep` in order.  The Python method
mutates the line and returns the final column; here both are returned. -/
def AbstractLine.string_test (l : AbstractLine) (chars : List Char)
    (column : Int) : AbstractLine × Int :=
  chars.foldl stringTestStep (l, column)

/-- Fold `place_char` over a list of (column, char) pairs starting from
the empty line: the lines reachable by any sequence of `place_char`
calls. -/
def placeChars (ops : List (Int × Char)) : AbstractLine :=
  ops.foldl (fun l pc => l.place_char pc.1 pc.2) AbstractLine.empty

/-- Overstrike composition of a line at one column: every character an
extent holds at that column, in extent order.  An extent `(b, t)` covers
column `col` when `b ≤ col < b + t.length`, contributing `t[col - b]`. -/
def AbstractLine.charsAt (l : AbstractLine) (col : Int) : List Char :=
  l.extents.filterMap fun bt =>
    if 0 ≤ col - bt.1 then bt.2.get? (col - bt.1).toNat else none

/-- An extent text that is nonempty and neither starts nor ends with a
space. -/
def ExtentTextOk (t : List Char) : Prop :=
  t ≠ [] ∧ t.head? ≠ some ' ' ∧ t.getLast? ≠ some ' '

/-- The line left by feeding the string `"bold\rbold"` (as characters)
through `string_test` from column 0 on an empty line. -/
def boldLine : AbstractLine :=
  (AbstractLine.empty.string_test
    ['b', 'o', 'l', 'd', '\r', 'b', 'o', 'l', 'd'] 0).1

/-- The tab rule in the words of the spec: the column advances to the
next multiple of 8, clamped to the screen width (last column 71). -/
def specNextTab (c : Int) : Int := min (8 * (c.fdiv 8 + 1)) 71

/-- Structure `Terminal` from ttyemu.py: cursor line and column, scroll
base, maximum line seen, and the sparse mapping of line index to
`AbstractLine`.  The Python `dict[int, AbstractLine]` with `alloc_line`
lazily inserting an empty line on first access is modelled as a total
function defaulting to the empty line: lookup and update agree with the
dict observably.  The frontend and backend hold no terminal state; the
`lines_screen()` value the frontend reports is the parameter `ls`
below. -/
structure Terminal where
  line : Int
  column : Int
  scroll_base : Int
  max_line : Int
  lines : Int → AbstractLine

/-- The `Terminal` constructor: cursor at origin, scroll base 0, no
lines. -/
def Terminal.init : Terminal :=
  ⟨0, 0, 0, 0, fun _ => AbstractLine.empty⟩

/-- Method `Terminal.reinit`: discard all state (the `frontend.reinit()`
call touches only the presentation layer). -/
def Terminal.reinit (_t : Terminal) : Terminal := Terminal.init

/-- Method `Terminal.alloc_line(line)`: with the total-function model of
the dict, lookup already yields the lazily created empty line. -/
def Terminal.alloc_line (t : Terminal) (line : Int) : AbstractLine :=
  t.lines line

/-- Method `Terminal.constrain_cursor`: clamp `line` to `≥ 0` and
`column` into `[0, COLUMNS - 1]`, in source order. -/
def Terminal.constrain_cursor (t : Terminal) : Terminal :=
  let t := if t.line < 0 then { t with line := 0 } else t
  let t := if t.column < 0 then { t with column := 0 } else t
  if t.column ≥ COLUMNS then { t with column := COLUMNS - 1 } else t

/-- Method `Terminal.scroll_into_view()` (with the default argument
`line = self.line`): pull `scroll_base` up to `line`, then push it so
that `line < scroll_base + ls`, where `ls = self.lines_screen()`. -/
def Terminal.scroll_into_view (ls : Int) (t : Terminal) : Terminal :=
  let t := if t.line < t.scroll_base then { t with scroll_base := t.line } else t
  if t.line ≥ t.scroll_base + ls then { t with scroll_base := t.line - ls + 1 }
  else t

/-- Method `Terminal.constrain_scroll`: raise `max_line` to the cursor
line, then clamp `scroll_base` to `≤ max_line - ls + 1` and to `≥ 0`, in
source order. -/
def Terminal.constrain_scroll (ls : Int) (t : Terminal) : Terminal :=
  let t := if t.line > t.max_line then { t with max_line := t.line } else t
  let t :=
    if t.scroll_base > t.max_line - ls + 1 then
      { t with scroll_base := t.max_line - ls + 1 }
    else t
  if t.scroll_base < 0 then { t with scroll_base := 0 } else t

/-- Method `Terminal.output_char(char)` from ttyemu.py.  The `match`
sends newline, carriage return, tab, backspace and form feed to cursor
updates, and every other character `≥ " "` to an uppercased `place_char`
into the current line; then `constrain_cursor` and `scroll_into_view`
run.  Python `(self.column + 7) // 8 * 8` is floor division,
`Int.fdiv`.  The `frontend.draw_char` call and the `refresh` flag touch
only the presentation layer and carry no terminal state. -/
def Terminal.output_char (ls : Int) (t : Terminal) (char : Char) : Terminal :=
  let t :=
    if char = '\n' then { t with line := t.line + 1 }
    else if char = '\r' then { t with column := 0 }
    else if char = '\t' then { t with column := ((t.column + 7).fdiv 8) * 8 }
    else if char = '\x08' then { t with column := t.column - 1 }
    else if char = '\x0c' then t.reinit
    else if ' ' ≤ char then
      let c := upper char
      let al := (t.alloc_line t.line).place_char t.column c
      { t with
          lines := fun i => if i = t.line then al else t.lines i,
          column := t.column + 1 }
    else t
  (t.constrain_cursor).scroll_into_view ls

/-- Method `Terminal.output_chars(chars)`: `output_char` in a loop (the
intermediate-refresh suppression has no terminal-state effect). -/
def Terminal.output_chars (ls : Int) (t : Terminal) (chars : List Char) :
    Terminal :=
  chars.foldl (Terminal.output_char ls) t

/-- Method `Terminal.page_down`: shift `scroll_base` down by half a
screen (`self.lines_screen() // 2`, floor division) and re-clamp. -/
def Terminal.page_down (ls : Int) (t : Terminal) : Terminal :=
  ({ t with scroll_base := t.scroll_base + ls.fdiv 2 }).constrain_scroll ls

/-- Method `Terminal.page_up`: shift `scroll_base` up by half a screen
and re-clamp. -/
def Terminal.page_up (ls : Int) (t : Terminal) : Terminal :=
  ({ t with scroll_base := t.scroll_base - ls.fdiv 2 }).constrain_scroll ls

/-- One user-visible operation on the terminal, for stating properties of
arbitrary operation sequences. -/
inductive TermOp where
  | out (char : Char)
  | outs (chars : List Char)
  | pageUp
  | pageDown
deriving DecidableEq

/-- Run one `TermOp`. -/
def runOp (ls : Int) (t : Terminal) : TermOp → Terminal
  | .out c => t.output_char ls c
  | .outs cs => t.output_chars ls cs
  | .pageUp => t.page_up ls
  | .pageDown => t.page_down ls

/-- Run a sequence of terminal operations from a state. -/
def runOps (ls : Int) (t : Terminal) (ops : List TermOp) : Terminal :=
  ops.foldl (runOp ls) t

/-- Scroll bounds that every reachable terminal state satisfies: the
cursor line and the scroll base are nonnegative, the scroll base never
exceeds the cursor line, and `max_line` trails the cursor line. -/
def TermInvWeak (t : Terminal) : Prop :=
  0 ≤ t.line ∧ 0 ≤ t.scroll_base ∧ t.scroll_base ≤ t.line ∧
  t.max_line ≤ t.line

/-- The full visibility invariant of the spec: `TermInvWeak` plus the
cursor line inside the window of `ls` lines starting at the scroll
base. -/
def TermInvFull (ls : Int) (t : Terminal) : Prop :=
  TermInvWeak t ∧ t.line ≤ t.scroll_base + ls - 1

/-- Semantic tags of the sound assets sounds.py looks up by name
(`PygameSounds.get`): `hum`, `key`, `bell`, `cr`, `lid`, `platen`,
`print-spaces`, `print-chars`, `motor-on`, `motor-off`. -/
inductive SoundTag where
  | humTag
  | keyTag
  | bellTag
  | crTag
  | lidTag
  | platenTag
  | printSpacesTag
  | printCharsTag
  | motorOnTag
  | motorOffTag
deriving DecidableEq

/-- State of `PygameSounds` from sounds.py.  `soundsLoaded` models
`bool(self.sounds)` after `start` (false when the asset directory failed
to load).  Timers set with `pygame.time.set_timer(evt, ms)` repeat until
set to 0; each is an armed flag here.  Loop volumes are exact rationals
(the code only ever assigns 0, 0.3, 0.5, 0.7, 1.0 and multiplies by
0.7).  `effects` logs the `self.chfx.play(self.get(name))` dispatches as
(lid state at lookup, tag) pairs, equivalent to the looked-up asset name
`lid_state + "-" + tag`; which member of a repeated-sample set the lookup
draws is random and carries no state.  The effect-channel pool itself is
the audio device.  `ch0Log` logs plays on the dedicated channel `ch0`,
and `loopsPaused` is the shared paused state of the loop channels `ch1`
and `ch2`. -/
structure SoundsState where
  soundsLoaded : Bool
  lidUp : Bool
  active_key_count : Int
  active_printout : List Char
  keyTimer : Bool
  chrTimer : Bool
  humTimer : Bool
  syncTimer : Bool
  humVolume : ℚ
  spacesVolume : ℚ
  charsVolume : ℚ
  loopsPaused : Bool
  effects : List (Bool × SoundTag)
  ch0Log : List (Bool × SoundTag)
deriving DecidableEq

/-- Method `PygameSounds.get(sound_name)`: the actual asset name is the
lid state joined to the tag; modelled as the pair. -/
def soundName (s : SoundsState) (tag : SoundTag) : Bool × SoundTag :=
  (s.lidUp, tag)

/-- A `self.chfx.play(self.get(tag))` call: dispatch one effect sound. -/
def playEffect (s : SoundsState) (tag : SoundTag) : SoundsState :=
  { s with effects := s.effects ++ [soundName s tag] }

/-- Method `PygameSounds._sound_for_keypress`: with no pending key,
cancel the key-decay timer; otherwise dispatch a key effect. -/
def soundForKeypress (s : SoundsState) : SoundsState :=
  if s.active_key_count ≤ 0 then { s with keyTimer := false }
  else playEffect s .keyTag

/-- Method `PygameSounds.keypress(key)` (the `key` argument is unused in
the source): no-op when sounds failed to load; increment the pending
count; if a press was already pending just coalesce, else arm the 100ms
`EVENT_KEY` timer and play the immediate effect. -/
def keypress (s : SoundsState) : SoundsState :=
  if !s.soundsLoaded then s
  else
    let s := { s with active_key_count := s.active_key_count + 1 }
    if s.active_key_count > 1 then s
    else soundForKeypress { s with keyTimer := true }

/-- Method `PygameSounds._fade_to_hum`: when the hum is not already at
full volume, crossfade to hum 1.0 and the print loops to 0.0 (the
intermediate volume steps separated by `pygame.time.wait(3)` collapse to
their final assignments in this timing-free model); in either case pause
the two print-loop channels. -/
def fadeToHum (s : SoundsState) : SoundsState :=
  let s :=
    if s.humVolume ≤ 99 / 100 then
      { s with humVolume := 1, spacesVolume := 0, charsVolume := 0 }
    else s
  { s with loopsPaused := true }

/-- Method `PygameSounds._fade_to_spaces`: crossfade to the space loop at
1.0 (same collapsing of intermediate steps) and unpause the loop
channels. -/
def fadeToSpaces (s : SoundsState) : SoundsState :=
  let s :=
    if s.spacesVolume ≤ 99 / 100 then
      { s with humVolume := 0, spacesVolume := 1, charsVolume := 0 }
    else s
  { s with loopsPaused := false }

/-- Method `PygameSounds._fade_to_chars`: crossfade to the char loop at
1.0 and unpause the loop channels. -/
def fadeToChars (s : SoundsState) : SoundsState :=
  let s :=
    if s.charsVolume ≤ 99 / 100 then
      { s with humVolume := 0, spacesVolume := 0, charsVolume := 1 }
    else s
  { s with loopsPaused := false }

/-- Python `str.isspace()` restricted to code points above 32; inside
`_sound_for_char` it is consulted only after `ord(next_char) <= 32` has
failed, so only the non-ASCII whitespace code points matter. -/
def pythonIsSpace (c : Char) : Bool :=
  [0x85, 0xa0, 0x1680, 0x2000, 0x2001, 0x2002, 0x2003, 0x2004, 0x2005,
   0x2006, 0x2007, 0x2008, 0x2009, 0x200a, 0x2028, 0x2029, 0x202f,
   0x205f, 0x3000].contains c.toNat

/-- Method `PygameSounds._sound_for_char`: with nothing left to print,
cancel the `EVENT_CHR` timer and arm the 100ms `EVENT_HUM` timer; a
carriage return mutes hum and chars, raises the space loop, plays the
`cr` effect and arms a 10ms `EVENT_SYNC` timer; a bell mutes all loops
and plays the `bell` effect; other control characters and whitespace
fade to the space loop; anything else fades to the char loop. -/
def soundForChar (s : SoundsState) : SoundsState :=
  match s.active_printout with
  | [] => { s with chrTimer := false, humTimer := true }
  | c :: _ =>
    if c = '\r' then
      { playEffect
          { s with humVolume := 0, spacesVolume := 1, charsVolume := 0 }
          .crTag
        with syncTimer := true }
    else if c = '\x07' then
      playEffect
        { s with humVolume := 0, spacesVolume := 0, charsVolume := 0 }
        .bellTag
    else if c.toNat ≤ 32 || pythonIsSpace c then fadeToSpaces s
    else fadeToChars s

/-- Method `PygameSounds.print_chars(chars)`: no-op when sounds failed to
load; append to the pending printout, arm the repeating 100ms `EVENT_CHR`
timer, and sound the head character. -/
def print_chars (cs : List Char) (s : SoundsState) : SoundsState :=
  if !s.soundsLoaded then s
  else soundForChar { s with active_printout := s.active_printout ++ cs,
                             chrTimer := true }

/-- Method `PygameSounds.lid`: no-op when sounds failed to load; fade to
hum, play the `lid` effect (looked up under the old lid state), flip the
lid state, and arm a 250ms `EVENT_SYNC` timer. -/
def lid (s : SoundsState) : SoundsState :=
  if !s.soundsLoaded then s
  else
    let s := fadeToHum s
    let s := playEffect s .lidTag
    let s := { s with lidUp := !s.lidUp }
    { s with syncTimer := true }

/-- Method `PygameSounds.platen`: no-op when sounds failed to load; play
the `platen` effect. -/
def platen (s : SoundsState) : SoundsState :=
  if !s.soundsLoaded then s
  else playEffect s .platenTag

/-- Method `PygameSounds.stop`: no-op when sounds failed to load; play
the `motor-off` sound on `ch0` (the waits and the channel fadeout are
device effects with no engine state). -/
def stop (s : SoundsState) : SoundsState :=
  if !s.soundsLoaded then s
  else { s with ch0Log := s.ch0Log ++ [soundName s .motorOffTag] }

/-- Method `PygameSounds._start_loops`: restart the three loop sounds on
their channels (which unpauses `ch1` and `ch2`) at volume 0. -/
def startLoops (s : SoundsState) : SoundsState :=
  { s with humVolume := 0, spacesVolume := 0, charsVolume := 0,
           loopsPaused := false }

/-- The timer and user events `PygameSounds.event` reacts to:
`EVENT_HUM`, `EVENT_KEY`, `EVENT_CHR`, `EVENT_SYNC`, and anything
else. -/
inductive SoundEvent where
  | hum
  | key
  | chr
  | sync
  | other

/-- Method `PygameSounds.event(evt)`: no-op when sounds failed to load.
`EVENT_HUM` cancels its timer and fades to hum unless output is pending;
`EVENT_KEY` decrements the pending-key count and re-sounds; `EVENT_CHR`
pops one pending character and sounds the next; `EVENT_SYNC` cancels
itself, arms the hum timer and restarts the loops; other events only
log. -/
def event (evt : SoundEvent) (s : SoundsState) : SoundsState :=
  if !s.soundsLoaded then s
  else
    match evt with
    | .hum =>
      let s := { s with humTimer := false }
      if s.active_printout ≠ [] then s else fadeToHum s
    | .key =>
      soundForKeypress { s with active_key_count := s.active_key_count - 1 }
    | .chr =>
      soundForChar { s with active_printout := s.active_printout.drop 1 }
    | .sync =>
      startLoops { s with syncTimer := false, humTimer := true }
    | .other => s

/-- The idle audio state after start-up with assets loaded: lid up (the
constructor initial `lid_state`), no pending keys or printout, no decay
timers armed, hum at full volume, print loops paused, nothing dispatched
yet. -/
def idleSounds : SoundsState :=
  { soundsLoaded := true, lidUp := true, active_key_count := 0,
    active_printout := [], keyTimer := false, chrTimer := false,
    humTimer := false, syncTimer := false, humVolume := 1,
    spacesVolume := 0, charsVolume := 0, loopsPaused := true,
    effects := [], ch0Log := [] }

/-! Theorems.  Helper lemmas come first; the claim theorems follow. -/

/-- Helper: a column covered by no extent has empty overstrike
composition. -/
lemma charsAt_eq_nil (l : AbstractLine) (col : Int)
    (h : ∀ bt ∈ l.extents, ¬(bt.1 ≤ col ∧ col < bt.1 + bt.2.length)) :
    l.charsAt col = [] := by
  unfold AbstractLine.charsAt
  rw [List.filterMap_eq_nil_iff]
  intro bt hbt
  have hb := h bt hbt
  by_cases hge : 0 ≤ col - bt.1
  · rw [if_pos hge]
    apply List.get?_eq_none.mpr
    omega
  · rw [if_neg hge]

/-- Helper: `place_char` preserves extent texts that are nonempty and
space-free at both ends. -/
lemma extentTextOk_place_char {l : AbstractLine} (column : Int) (char : Char)
    (h : ∀ bt ∈ l.extents, ExtentTextOk bt.2) :
    ∀ bt ∈ (l.place_char column char).extents, ExtentTextOk bt.2 := by
  intro bt hbt
  unfold AbstractLine.place_char at hbt
  by_cases hsp : char = ' '
  · rw [if_pos hsp] at hbt
    exact h bt hbt
  · rw [if_neg hsp] at hbt
    simp only [List.mem_append, List.mem_map, List.mem_singleton] at hbt
    rcases hbt with ⟨bt0, hbt0, rfl⟩ | rfl
    · obtain ⟨b0, t0⟩ := bt0
      obtain ⟨hne, hhd, hlast⟩ := h _ hbt0
      dsimp only at hne hhd hlast
      obtain ⟨x, xs, rfl⟩ := List.exists_cons_of_ne_nil hne
      dsimp only
      by_cases h1 : (b0 + ((x :: xs).length : Int)) = column
      · rw [if_pos h1]
        refine ⟨by simp, by simpa using hhd, ?_⟩
        rw [List.getLast?_concat]
        simpa using hsp
      · rw [if_neg h1]
        by_cases h2 : (b0 + ((x :: xs).length : Int)) + 1 = column
        · rw [if_pos h2]
          refine ⟨by simp, by simpa using hhd, ?_⟩
          have : (x :: xs) ++ [' ', char] = ((x :: xs) ++ [' ']) ++ [char] := by
            simp
          rw [this, List.getLast?_concat]
          simpa using hsp
        · rw [if_neg h2]
          exact ⟨hne, hhd, hlast⟩
    · exact ⟨by simp, by simpa using hsp, by simpa using hsp⟩

/-- Helper: folding `place_char` preserves well-formed extent texts. -/
lemma placeChars_ok_aux (ops : List (Int × Char)) (l : AbstractLine)
    (h : ∀ bt ∈ l.extents, ExtentTextOk bt.2) :
    ∀ bt ∈ (ops.foldl (fun l pc => l.place_char pc.1 pc.2) l).extents,
      ExtentTextOk bt.2 := by
  induction ops generalizing l with
  | nil => exact h
  | cons p ps ih => exact ih _ (extentTextOk_place_char p.1 p.2 h)

/-- C10: for every column `c` and non-space character `ch`,
`AbstractLine.place_char(c, ch)` grows the extent list by exactly one,
appending the one-character extent `(c, ch)` at the end — on every
non-space call, including calls that also merged `ch` into existing
extents. -/
theorem c10_place_char_appends_every_call (l : AbstractLine) (column : Int)
    (char : Char) (h : char ≠ ' ') :
    (l.place_char column char).extents.length = l.extents.length + 1 ∧
    (l.place_char column char).extents.getLast? = some (column, [char]) := by
  unfold AbstractLine.place_char
  rw [if_neg h]
  exact ⟨by simp, by simp⟩

/-- Witness for C10 at the empty line, column 0, character `a`. -/
theorem c10_place_char_appends_witness :
    (AbstractLine.empty.place_char 0 'a').extents.length =
        AbstractLine.empty.extents.length + 1 ∧
    (AbstractLine.empty.place_char 0 'a').extents.getLast? = some (0, ['a']) :=
  c10_place_char_appends_every_call AbstractLine.empty 0 'a' (by decide)

/-- C1: evaluation of `place_char` at the failing input.  On the line
with the single extent `(0, "b")`, the call `place_char(1, 'o')` both
appends `o` to that extent (its end equals the column) and appends the
new one-character extent `(1, "o")` — the claim says exactly one of the
two happens per call, and the `place_char` docstring says the character
is inserted into an available extent; the unconditional append after the
merge loop (a missing early return) does both. -/
theorem c1_place_char_both_merges_and_appends :
    AbstractLine.place_char ⟨[(0, ['b'])]⟩ 1 'o' =
      ⟨[(0, ['b', 'o']), (1, ['o'])]⟩ := by decide

/-- C7: feeding `a ++ b` through `string_test` from any starting column
equals feeding `a` and then feeding `b` from the resulting column, with
the same final line contents and final column. -/
theorem c7_string_test_append (a b : List Char) (c : Int) (l : AbstractLine)
    (_h0 : 0 ≤ c) (_h1 : c ≤ COLUMNS - 1) :
    l.string_test (a ++ b) c =
      (l.string_test a c).1.string_test b (l.string_test a c).2 := by
  unfold AbstractLine.string_test
  rw [List.foldl_append]

/-- Witness for C7 on concrete strings and column 0. -/
theorem c7_string_test_append_witness :
    (0 : Int) ≤ 0 ∧ (0 : Int) ≤ COLUMNS - 1 ∧
    AbstractLine.empty.string_test (['h', 'i'] ++ ['\x08', 'j']) 0 =
      (AbstractLine.empty.string_test ['h', 'i'] 0).1.string_test
        ['\x08', 'j'] (AbstractLine.empty.string_test ['h', 'i'] 0).2 :=
  ⟨by decide, by decide,
   c7_string_test_append ['h', 'i'] ['\x08', 'j'] 0 AbstractLine.empty
     (by decide) (by decide)⟩

/-- C4 counterexample: after `place_char(0, 'a')` and `place_char(2, 'b')`
on an empty line, the first extent stores the text `"a b"`, which
contains a space (the gap filler written by the `end + 1 == column`
merge branch, `text + " " + char`) — so an extent text does store a
space, contrary to the claim. -/
theorem c4_extent_contains_space :
    (placeChars [((0 : Int), 'a'), ((2 : Int), 'b')]).extents =
      [(0, ['a', ' ', 'b']), (2, ['b'])] ∧
    (placeChars [((0 : Int), 'a'), ((2 : Int), 'b')]).extents.map
        (fun bt => bt.2.contains ' ') = [true, false] := by decide

/-- C4 amended: in every line reachable by `place_char` calls from the
empty line, every extent text is nonempty and neither starts nor ends
with a space; spaces can appear only in the interior of an extent text,
as gap fillers written by the one-past-the-end merge. -/
theorem c4_no_space_at_ends_amended (ops : List (Int × Char)) :
    ∀ bt ∈ (placeChars ops).extents, ExtentTextOk bt.2 :=
  placeChars_ok_aux ops AbstractLine.empty (by simp [AbstractLine.empty])

/-- Witness for C4 amended at the counterexample line: the gap-filled
text `"a b"` is nonempty and space-free at both ends. -/
theorem c4_no_space_at_ends_witness : ExtentTextOk ['a', ' ', 'b'] :=
  c4_no_space_at_ends_amended [((0 : Int), 'a'), ((2 : Int), 'b')]
    ((0 : Int), ['a', ' ', 'b']) (by decide)

/-- C3 counterexample: feeding `"bold\rbold"` through `string_test` from
column 0 on an empty line leaves eight extents, not exactly one — each
`place_char` also appends a fresh extent, and retyping over an existing
extent never merges into its interior. -/
theorem c3_bold_overstrike_not_one_extent :
    boldLine.extents =
      [(0, ['b', 'o', 'l', 'd']), (1, ['o', 'l', 'd']), (2, ['l', 'd']),
       (3, ['d']), (0, ['b', 'o', 'l', 'd']), (1, ['o', 'l', 'd']),
       (2, ['l', 'd']), (3, ['d'])] ∧
    boldLine.extents.length ≠ 1 := by decide

/-- C3 amended: feeding `"bold\rbold"` through `string_test` from column
0 on an empty line leaves a line whose first extent starts at column 0
holding `"bold"`, and whose per-column overstrike composition equals
`"bold"`: each of the columns 0..3 is covered, only by the corresponding
character of `"bold"` (identical overstrike of the same glyphs), and no
other column is covered — but the line holds eight extents, not one. -/
theorem c3_bold_overstrike_amended :
    boldLine.extents.head? = some (0, ['b', 'o', 'l', 'd']) ∧
    (∀ col : Int, 0 ≤ col → col < 4 →
      boldLine.charsAt col ≠ [] ∧
      ∀ ch ∈ boldLine.charsAt col,
        some ch = [ 'b', 'o', 'l', 'd' ].get? col.toNat) ∧
    (∀ col : Int, col < 0 ∨ 4 ≤ col → boldLine.charsAt col = []) := by
  refine ⟨by decide, ?_, ?_⟩
  · intro col hc0 hc4
    have hcase : col = 0 ∨ col = 1 ∨ col = 2 ∨ col = 3 := by omega
    rcases hcase with rfl | rfl | rfl | rfl <;> exact by decide
  · intro col hcol
    apply charsAt_eq_nil
    intro bt hbt
    have hb : ∀ bt ∈ boldLine.extents,
        0 ≤ bt.1 ∧ bt.1 + (bt.2.length : Int) ≤ 4 := by decide
    have := hb bt hbt
    omega

/-- Witness for C3 amended: column 2 is covered, column 5 is not. -/
theorem c3_bold_overstrike_witness :
    ((0 : Int) ≤ 2 ∧ (2 : Int) < 4 ∧ boldLine.charsAt 2 ≠ []) ∧
    boldLine.charsAt 5 = [] :=
  ⟨⟨by decide, by decide,
    (c3_bold_overstrike_amended.2.1 2 (by decide) (by decide)).1⟩,
   c3_bold_overstrike_amended.2.2 5 (Or.inr (by decide))⟩

/-- C5 counterexample: from starting column 0, `Terminal.output_char`
processing a tab leaves the column at 0 (Python `(0 + 7) // 8 * 8 = 0`),
while `string_test` advances it to 8 (`(0 + 8) & -8 = 8`): the two tab
rules disagree, and the terminal does not advance to the next multiple
of 8. -/
theorem c5_tab_rules_disagree_at_zero :
    (Terminal.output_char 24 Terminal.init '\t').column = 0 ∧
    (AbstractLine.empty.string_test ['\t'] 0).2 = 8 := by decide

/-- C5 amended: for every starting column in `[0, 71]`, `string_test`
advances the column to the next multiple of 8 clamped to the screen
width, and `Terminal.output_char` computes the same column exactly when
the starting column is not a multiple of 8; at a multiple of 8 the
terminal leaves the column unchanged (it rounds up instead of
advancing). -/
theorem c5_tab_amended :
    ∀ n : Nat, n < 72 →
      ((AbstractLine.empty.string_test ['\t'] (n : Int)).2 = specNextTab n ∧
       (n % 8 ≠ 0 →
         (Terminal.output_char 24 { Terminal.init with column := (n : Int) }
             '\t').column = specNextTab n) ∧
       (n % 8 = 0 →
         (Terminal.output_char 24 { Terminal.init with column := (n : Int) }
             '\t').column = n)) := by decide

/-- Witness for C5 amended at columns 3 (not a multiple of 8) and 8 (a
multiple of 8). -/
theorem c5_tab_witness :
    ((3 : Nat) < 72 ∧ (3 : Nat) % 8 ≠ 0 ∧
      (Terminal.output_char 24 { Terminal.init with column := (3 : Int) }
          '\t').column = specNextTab 3) ∧
    ((8 : Nat) % 8 = 0 ∧
      (Terminal.output_char 24 { Terminal.init with column := (8 : Int) }
          '\t').column = (8 : Nat)) :=
  ⟨⟨by decide, by decide, (c5_tab_amended 3 (by decide)).2.1 (by decide)⟩,
   ⟨by decide, (c5_tab_amended 8 (by decide)).2.2 (by decide)⟩⟩

/-- C6 counterexample: the left brace (code point 123) is printable and
not a lowercase letter, yet `upper` maps it to the left bracket (code
point 91): `(123 - 32) & 127 = 91 > 64`, so it is folded to
`32 | (91 & 31) = 59` and 91 comes back out — not placed unchanged. -/
theorem c6_upper_changes_brace :
    32 ≤ Char.toNat '\x7b' ∧ ¬('a' ≤ '\x7b' ∧ '\x7b' ≤ 'z') ∧
    upper '\x7b' ≠ '\x7b' ∧ upper '\x7b' = '[' := by decide

/-- C6 amended: on the 7-bit range, `upper` maps the lowercase letters
(code points 97..122) to the corresponding uppercase letters, leaves
code points 32..96 unchanged, and also maps code points 123..127 down by
32 (left brace, pipe, right brace, tilde and DEL become left bracket,
backslash, right bracket, caret and underscore) — the case fold is not
the only change on printable characters. -/
theorem c6_upper_amended :
    ∀ n : Nat, n < 128 → 32 ≤ n →
      ((97 ≤ n ∧ n ≤ 122 → upper (Char.ofNat n) = Char.ofNat (n - 32)) ∧
       (n ≤ 96 → upper (Char.ofNat n) = Char.ofNat n) ∧
       (123 ≤ n → upper (Char.ofNat n) = Char.ofNat (n - 32))) := by decide

/-- Witness for C6 amended at the letter `a` (code point 97): it is
case-folded to `A` (code point 65). -/
theorem c6_upper_witness :
    (97 : Nat) < 128 ∧ 32 ≤ (97 : Nat) ∧
    upper (Char.ofNat 97) = Char.ofNat 65 :=
  ⟨by decide, by decide,
   (c6_upper_amended 97 (by decide) (by decide)).1 (by decide)⟩

/-- Helper: `constrain_cursor` clamps the line to `max line 0` and leaves
the scroll base and `max_line` alone. -/
lemma constrain_cursor_spec (t : Terminal) :
    (t.constrain_cursor).line = max t.line 0 ∧
    (t.constrain_cursor).scroll_base = t.scroll_base ∧
    (t.constrain_cursor).max_line = t.max_line := by
  simp only [Terminal.constrain_cursor]
  split <;> split <;> split <;> refine ⟨?_, rfl, rfl⟩ <;> simp <;> omega

/-- Helper: `scroll_into_view` changes only the scroll base. -/
lemma scroll_into_view_spec (ls : Int) (t : Terminal) :
    (t.scroll_into_view ls).line = t.line ∧
    (t.scroll_into_view ls).max_line = t.max_line := by
  simp only [Terminal.scroll_into_view]
  split <;> split <;> exact ⟨rfl, rfl⟩

/-- Helper: with at least one line on screen, a nonnegative cursor line
and a nonnegative scroll base, `scroll_into_view` yields a nonnegative
scroll base with the cursor line inside the window. -/
lemma scroll_into_view_base (ls : Int) (t : Terminal) (hls : 1 ≤ ls)
    (h0 : 0 ≤ t.line) (hsb : 0 ≤ t.scroll_base) :
    0 ≤ (t.scroll_into_view ls).scroll_base ∧
    (t.scroll_into_view ls).scroll_base ≤ t.line ∧
    t.line ≤ (t.scroll_into_view ls).scroll_base + ls - 1 := by
  simp only [Terminal.scroll_into_view]
  split <;> split <;> simp_all <;> omega

/-- Helper: with at least one line on screen, a nonnegative cursor line
and `max_line` at most the cursor line, `constrain_scroll` keeps the
cursor line and yields a scroll base in `[0, line]` and `max_line` still
at most the cursor line. -/
lemma constrain_scroll_spec (ls : Int) (t : Terminal) (hls : 1 ≤ ls)
    (h0 : 0 ≤ t.line) (hm : t.max_line ≤ t.line) :
    (t.constrain_scroll ls).line = t.line ∧
    0 ≤ (t.constrain_scroll ls).scroll_base ∧
    (t.constrain_scroll ls).scroll_base ≤ t.line ∧
    (t.constrain_scroll ls).max_line ≤ t.line := by
  simp only [Terminal.constrain_scroll]
  split <;> split <;> split <;> simp_all <;> omega

/-- Helper: the tail of every `output_char` branch — clamping the cursor
and scrolling it into view — restores the full visibility invariant from
a nonnegative scroll base and a trailing `max_line`. -/
lemma after_cc_siv (ls : Int) (t1 : Terminal) (hls : 1 ≤ ls)
    (hsb : 0 ≤ t1.scroll_base) (hm : t1.max_line ≤ max t1.line 0) :
    TermInvFull ls ((t1.constrain_cursor).scroll_into_view ls) := by
  obtain ⟨hl, hsb2, hml⟩ := constrain_cursor_spec t1
  obtain ⟨hl2, hml2⟩ := scroll_into_view_spec ls t1.constrain_cursor
  obtain ⟨a, b, c⟩ :=
    scroll_into_view_base ls t1.constrain_cursor hls (by omega) (by omega)
  exact ⟨⟨by omega, by omega, by omega, by omega⟩, by omega⟩

/-- Helper: one `output_char` restores the full visibility invariant
from the weak scroll bounds. -/
lemma output_char_inv (ls : Int) (char : Char) (t : Terminal) (hls : 1 ≤ ls)
    (h : TermInvWeak t) : TermInvFull ls (t.output_char ls char) := by
  obtain ⟨h0, h1, h2, h3⟩ := h
  simp only [Terminal.output_char]
  apply after_cc_siv ls _ hls <;>
    split_ifs <;> simp_all [Terminal.reinit, Terminal.init] <;> omega

/-- Helper: `output_chars` preserves the full visibility invariant. -/
lemma output_chars_full (ls : Int) (cs : List Char) (t : Terminal)
    (hls : 1 ≤ ls) (h : TermInvFull ls t) :
    TermInvFull ls (t.output_chars ls cs) := by
  induction cs generalizing t with
  | nil => exact h
  | cons c cs ih => exact ih (t.output_char ls c) (output_char_inv ls c t hls h.1)

/-- Helper: `output_chars` preserves the weak scroll bounds. -/
lemma output_chars_weak (ls : Int) (cs : List Char) (t : Terminal)
    (hls : 1 ≤ ls) (h : TermInvWeak t) : TermInvWeak (t.output_chars ls cs) := by
  cases cs with
  | nil => exact h
  | cons c cs =>
      exact (output_chars_full ls cs _ hls (output_char_inv ls c t hls h)).1

/-- Helper: `page_up` preserves the weak scroll bounds (it may push the
cursor line below the visible window, so not the full invariant). -/
lemma page_up_weak (ls : Int) (t : Terminal) (hls : 1 ≤ ls)
    (h : TermInvWeak t) : TermInvWeak (t.page_up ls) := by
  obtain ⟨li, co, sb, ml, lf⟩ := t
  obtain ⟨h0, h1, h2, h3⟩ := h
  unfold Terminal.page_up TermInvWeak
  dsimp only
  dsimp only [TermInvWeak] at *
  have hspec :=
    constrain_scroll_spec ls ⟨li, co, sb - ls.fdiv 2, ml, lf⟩ hls h0 h3
  obtain ⟨a, b, c, d⟩ := hspec
  exact ⟨by omega, by omega, by omega, by omega⟩

/-- Helper: `page_down` preserves the weak scroll bounds. -/
lemma page_down_weak (ls : Int) (t : Terminal) (hls : 1 ≤ ls)
    (h : TermInvWeak t) : TermInvWeak (t.page_down ls) := by
  obtain ⟨li, co, sb, ml, lf⟩ := t
  obtain ⟨h0, h1, h2, h3⟩ := h
  unfold Terminal.page_down TermInvWeak
  dsimp only
  dsimp only [TermInvWeak] at *
  have hspec :=
    constrain_scroll_spec ls ⟨li, co, sb + ls.fdiv 2, ml, lf⟩ hls h0 h3
  obtain ⟨a, b, c, d⟩ := hspec
  exact ⟨by omega, by omega, by omega, by omega⟩

/-- Helper: when the cursor line already sits within `ls - 1` rows below
the (possibly shifted) scroll base, `constrain_scroll` restores the full
visibility invariant: it raises `max_line` to the cursor line first, so
the `scroll_base ≤ max_line - ls + 1` clamp also bounds the scroll base
by the cursor line. -/
lemma constrain_scroll_full (ls : Int) (t : Terminal) (hls : 1 ≤ ls)
    (h0 : 0 ≤ t.line) (hm : t.max_line ≤ t.line)
    (hup : t.line ≤ t.scroll_base + ls - 1) :
    TermInvFull ls (t.constrain_scroll ls) := by
  unfold TermInvFull TermInvWeak
  simp only [Terminal.constrain_scroll]
  split <;> split <;> split <;> simp_all <;> omega

/-- Helper: `page_down` preserves the full visibility invariant — it
moves the scroll base down (a nonnegative half-screen shift), and
`constrain_scroll` clamps it back to at most `line - ls + 1`, keeping
the cursor inside the window. -/
lemma page_down_full (ls : Int) (t : Terminal) (hls : 1 ≤ ls)
    (h : TermInvFull ls t) : TermInvFull ls (t.page_down ls) := by
  obtain ⟨li, co, sb, ml, lf⟩ := t
  obtain ⟨⟨h0, h1, h2, h3⟩, h4⟩ := h
  dsimp only [TermInvFull, TermInvWeak] at *
  unfold Terminal.page_down
  dsimp only
  have hf : 0 ≤ ls.fdiv 2 := Int.fdiv_nonneg (by omega) (by omega)
  exact constrain_scroll_full ls ⟨li, co, sb + ls.fdiv 2, ml, lf⟩ hls h0 h3
    (by dsimp only; omega)

/-- Helper: every operation preserves the weak scroll bounds. -/
lemma runOp_weak (ls : Int) (op : TermOp) (t : Terminal) (hls : 1 ≤ ls)
    (h : TermInvWeak t) : TermInvWeak (runOp ls t op) := by
  cases op with
  | out c => exact (output_char_inv ls c t hls h).1
  | outs cs => exact output_chars_weak ls cs t hls h
  | pageUp => exact page_up_weak ls t hls h
  | pageDown => exact page_down_weak ls t hls h

/-- Helper: operation sequences preserve the weak scroll bounds. -/
lemma runOps_weak (ls : Int) (ops : List TermOp) (t : Terminal)
    (hls : 1 ≤ ls) (h : TermInvWeak t) : TermInvWeak (runOps ls t ops) := by
  induction ops generalizing t with
  | nil => exact h
  | cons op ops ih => exact ih (runOp ls t op) (runOp_weak ls op t hls h)

/-- Helper: operation sequences free of `page_up` preserve the full
visibility invariant (output restores it and `page_down` keeps it). -/
lemma runOps_full (ls : Int) (ops : List TermOp) (t : Terminal)
    (hls : 1 ≤ ls) (h : TermInvFull ls t)
    (hnup : ∀ op ∈ ops, op ≠ TermOp.pageUp) :
    TermInvFull ls (runOps ls t ops) := by
  induction ops generalizing t with
  | nil => exact h
  | cons op ops ih =>
      have h1 : TermInvFull ls (runOp ls t op) := by
        cases op with
        | out c => exact output_char_inv ls c t hls h.1
        | outs cs => exact output_chars_full ls cs t hls h
        | pageUp => exact absurd rfl (hnup TermOp.pageUp (List.mem_cons_self _ _))
        | pageDown => exact page_down_full ls t hls h
      exact ih (runOp ls t op) h1 fun o ho => hnup o (List.mem_cons_of_mem _ ho)

/-- Helper: the initial terminal satisfies the full visibility
invariant for any positive screen height. -/
lemma init_full (ls : Int) (hls : 1 ≤ ls) : TermInvFull ls Terminal.init := by
  refine ⟨⟨?_, ?_, ?_, ?_⟩, ?_⟩ <;> simp [Terminal.init] <;> omega

set_option maxRecDepth 8000 in
/-- C2 counterexample: with 4 lines per screen, ten newlines followed by
one `page_up` leave the cursor at line 10 with scroll base 5, so
`cursor_line ≤ scroll_base + lines_per_screen − 1` fails (10 > 8):
`page_up` re-clamps only against `max_line`, not against the cursor. -/
theorem c2_page_up_breaks_visibility :
    (runOps 4 Terminal.init
        (List.replicate 10 (TermOp.out '\n') ++ [TermOp.pageUp])).line = 10 ∧
    (runOps 4 Terminal.init
        (List.replicate 10 (TermOp.out '\n') ++ [TermOp.pageUp])).scroll_base
      = 5 ∧
    ¬((runOps 4 Terminal.init
          (List.replicate 10 (TermOp.out '\n') ++ [TermOp.pageUp])).line ≤
        (runOps 4 Terminal.init
            (List.replicate 10 (TermOp.out '\n') ++
              [TermOp.pageUp])).scroll_base + 4 - 1) := by decide

/-- C2 amended: for every positive `lines_per_screen`, after any sequence
of `output_char`, `output_chars`, `page_up` and `page_down` operations
from the initial state, `0 ≤ scroll_base ≤ cursor_line` holds; the upper
window bound `cursor_line ≤ scroll_base + lines_per_screen − 1` holds
additionally whenever the sequence contains no `page_up` — output
restores it and `page_down` preserves it (its shifted scroll base is
re-clamped to at most `cursor_line − lines_per_screen + 1`), while
`page_up` re-clamps only against `max_line` and may scroll the cursor
out of view. -/
theorem c2_scroll_invariant_amended (ls : Int) (hls : 1 ≤ ls)
    (ops : List TermOp) :
    (0 ≤ (runOps ls Terminal.init ops).scroll_base ∧
     (runOps ls Terminal.init ops).scroll_base ≤
       (runOps ls Terminal.init ops).line) ∧
    ((∀ op ∈ ops, op ≠ TermOp.pageUp) →
      (runOps ls Terminal.init ops).line ≤
        (runOps ls Terminal.init ops).scroll_base + ls - 1) := by
  have hw := runOps_weak ls ops Terminal.init hls (init_full ls hls).1
  exact ⟨⟨hw.2.1, hw.2.2.1⟩,
    fun hnup => (runOps_full ls ops Terminal.init hls (init_full ls hls) hnup).2⟩

/-- Witness for C2 amended: screen height 24, one printable output
followed by a `page_down`. -/
theorem c2_scroll_invariant_witness :
    (1 : Int) ≤ 24 ∧
    ((0 ≤ (runOps 24 Terminal.init
            [TermOp.out 'A', TermOp.pageDown]).scroll_base ∧
      (runOps 24 Terminal.init
          [TermOp.out 'A', TermOp.pageDown]).scroll_base ≤
        (runOps 24 Terminal.init [TermOp.out 'A', TermOp.pageDown]).line) ∧
     (runOps 24 Terminal.init [TermOp.out 'A', TermOp.pageDown]).line ≤
       (runOps 24 Terminal.init
           [TermOp.out 'A', TermOp.pageDown]).scroll_base + 24 - 1) :=
  ⟨by decide,
   ⟨(c2_scroll_invariant_amended 24 (by decide)
       [TermOp.out 'A', TermOp.pageDown]).1,
    (c2_scroll_invariant_amended 24 (by decide)
       [TermOp.out 'A', TermOp.pageDown]).2 (by decide)⟩⟩

/-- C8: from the idle audio state, two `keypress` calls before the decay
timer fires dispatch exactly two key effects in total — one immediately
at the first call, none at the second (coalesced), one more at the first
decay firing — and after the subsequent decay firing the pending-key
counter is 0 and the decay timer is cancelled. -/
theorem c8_two_keypresses_two_dispatches :
    (keypress idleSounds).effects = [(true, SoundTag.keyTag)] ∧
    (keypress (keypress idleSounds)).effects = [(true, SoundTag.keyTag)] ∧
    (event SoundEvent.key (keypress (keypress idleSounds))).effects =
      [(true, SoundTag.keyTag), (true, SoundTag.keyTag)] ∧
    (event SoundEvent.key
        (event SoundEvent.key (keypress (keypress idleSounds)))).effects =
      [(true, SoundTag.keyTag), (true, SoundTag.keyTag)] ∧
    (event SoundEvent.key
        (event SoundEvent.key
          (keypress (keypress idleSounds)))).active_key_count = 0 ∧
    (event SoundEvent.key
        (event SoundEvent.key (keypress (keypress idleSounds)))).keyTimer
      = false := by decide

/-- C9: when the sound assets failed to load (`self.sounds` stays empty),
every engine call — `keypress`, `print_chars`, `lid`, `platen`, `stop`
and `event` — returns with the audio state unchanged. -/
theorem c9_unloaded_noop (s : SoundsState) (cs : List Char)
    (evt : SoundEvent) (h : s.soundsLoaded = false) :
    keypress s = s ∧ print_chars cs s = s ∧ lid s = s ∧ platen s = s ∧
    stop s = s ∧ event evt s = s := by
  unfold keypress print_chars lid platen stop event
  simp [h]

/-- Witness for C9 at the idle state with the load flag cleared. -/
theorem c9_unloaded_noop_witness :
    keypress { idleSounds with soundsLoaded := false } =
        { idleSounds with soundsLoaded := false } ∧
    print_chars ['A'] { idleSounds with soundsLoaded := false } =
        { idleSounds with soundsLoaded := false } ∧
    lid { idleSounds with soundsLoaded := false } =
        { idleSounds with soundsLoaded := false } ∧
    platen { idleSounds with soundsLoaded := false } =
        { idleSounds with soundsLoaded := false } ∧
    stop { idleSounds with soundsLoaded := false } =
        { idleSounds with soundsLoaded := false } ∧
    event SoundEvent.hum { idleSounds with soundsLoaded := false } =
        { idleSounds with soundsLoaded := false } :=
  c9_unloaded_noop { idleSounds with soundsLoaded := false } ['A']
    SoundEvent.hum rfl

end Ttyemu
